import Mathlib

/-!
Verification of the ikspread scheduler core: a shallow embedding of
`src/scheduler/market-hours.ts`, `src/scheduler/scheduler.ts`,
`src/scheduler/types.ts` and `src/scheduler/orchestrator.ts`, together with
theorems settling the specification claims about them.

Modelling conventions:
* A point in time is a `Timestamp`: an absolute day index (`day`) plus the
  minute of the day (`minuteOfDay = getHours() * 60 + getMinutes()`, kept as
  `Int` because the source computes with JS numbers).  The day index is
  anchored so that `day % 7` is the JS `getDay()` weekday (0 = Sunday);
  advancing `setDate(getDate() + 1)` is `day + 1`, which advances the weekday
  by one modulo 7 exactly as the JS calendar does.
* Calendar dates appear in the source only through the injective formatter
  `formatDate : Date -> "YYYY-MM-DD"` used for holiday membership, so the
  holiday list is modelled as the corresponding list of day indices.
* `openTime`/`closeTime` are `"HH:MM"` strings in the source, consumed only
  via `split(":").map(Number)`; they are modelled as the parsed `TimeOfDay`
  pair (malformed strings are out of scope per the configuration contract).
* The closed-reason message templates are modelled by the inductive
  `ClosedReason`, one constructor per template, carrying the interpolated
  data.
* The two day-advancing `while` loops of `getNextOpenTime` are modelled with
  explicit fuel; the fuel bounds (7 for the weekday loop, one more than the
  number of holidays for the holiday loop) make the loops run to their guard
  exit on every configuration on which the JS loops terminate.
-/

namespace IkSpread

/-- A wall-clock instant: absolute day index plus minute of the day. -/
structure Timestamp where
  day : Nat
  minuteOfDay : Int
  deriving DecidableEq, Repr

/-- A parsed `"HH:MM"` time of day. -/
structure TimeOfDay where
  hour : Int
  min : Int
  deriving DecidableEq, Repr

/-- Minutes since midnight of a time of day (`hour * 60 + min`). -/
def TimeOfDay.minutes (t : TimeOfDay) : Int :=
  t.hour * 60 + t.min

/-- JS `Date.getDay()`: weekday 0-6 with 0 = Sunday, from the day index. -/
def dayOfWeek (day : Nat) : Nat :=
  day % 7

/-- Model of `market-hours.ts` `getDayName`. -/
def getDayName (day : Nat) : String :=
  (["Sunday", "Monday", "Tuesday", "Wednesday", "Thursday", "Friday",
    "Saturday"].getD day "")

/-- Model of `types.ts` `MarketHoursConfig` (holidays as day indices, times parsed). -/
structure MarketHoursConfig where
  openTime : TimeOfDay
  closeTime : TimeOfDay
  openDays : List Nat
  holidays : Option (List Nat)
  graceAfterOpen : Option Int
  graceBeforeClose : Option Int
  deriving DecidableEq, Repr

/-- The closed-reason message templates of `market-hours.ts`, one constructor
per template string, carrying the interpolated value. -/
inductive ClosedReason where
  | notOpenDay (dayName : String)
  | holiday (day : Nat)
  | beforeOpen (openTime : TimeOfDay)
  | afterClose (closeTime : TimeOfDay)
  deriving DecidableEq, Repr

/-- Model of `types.ts` `MarketStatus`. -/
structure MarketStatus where
  isOpen : Bool
  currentTime : Timestamp
  closedReason : Option ClosedReason
  nextOpenTime : Option Timestamp
  nextCloseTime : Option Timestamp
  deriving DecidableEq, Repr

/-- The first `while` loop of `getNextOpenTime`: advance day-by-day until the
weekday is in `openDays` (fuel-bounded; fuel 7 reaches the guard exit whenever
the JS loop terminates). -/
def nextOpenDayLoop (openDays : List Nat) : Nat → Nat → Nat
  | 0, d => d
  | fuel + 1, d =>
    if openDays.contains (dayOfWeek d) then d
    else nextOpenDayLoop openDays fuel (d + 1)

/-- The second `while` loop of `getNextOpenTime`: while the day is a holiday,
advance one day and re-run the weekday loop. -/
def skipHolidayLoop (config : MarketHoursConfig) : Nat → Nat → Nat
  | 0, d => d
  | fuel + 1, d =>
    if (config.holidays.getD []).contains d then
      skipHolidayLoop config fuel (nextOpenDayLoop config.openDays 7 (d + 1))
    else d

/-- Model of `market-hours.ts` `getNextOpenTime`: start from tomorrow at the configured
open time, advance to the next day whose weekday is in `openDays`, then skip
holidays (re-checking the weekday after each skip). -/
def getNextOpenTime (config : MarketHoursConfig) (t : Timestamp) : Timestamp :=
  let d0 := t.day + 1
  let d1 := nextOpenDayLoop config.openDays 7 d0
  let d2 := skipHolidayLoop config ((config.holidays.getD []).length + 1) d1
  { day := d2, minuteOfDay := config.openTime.minutes }

/-- Model of `market-hours.ts` `getNextCloseTime`: today's date at the close time. -/
def getNextCloseTime (config : MarketHoursConfig) (t : Timestamp) : Timestamp :=
  { day := t.day, minuteOfDay := config.closeTime.minutes }

/-- Model of `market-hours.ts` `isMarketOpen`. -/
def isMarketOpen (config : MarketHoursConfig) (t : Timestamp) : MarketStatus :=
  if !(config.openDays.contains (dayOfWeek t.day)) then
    { isOpen := false
      currentTime := t
      closedReason := some (.notOpenDay (getDayName (dayOfWeek t.day)))
      nextOpenTime := some (getNextOpenTime config t)
      nextCloseTime := none }
  else if (config.holidays.getD []).contains t.day then
    { isOpen := false
      currentTime := t
      closedReason := some (.holiday t.day)
      nextOpenTime := some (getNextOpenTime config t)
      nextCloseTime := none }
  else
    let currentMinutes := t.minuteOfDay
    let openMinutes := config.openTime.minutes
    let closeMinutes := config.closeTime.minutes
    let graceAfter := config.graceAfterOpen.getD 0
    let graceBefore := config.graceBeforeClose.getD 0
    let effectiveOpenMinutes := openMinutes + graceAfter
    let effectiveCloseMinutes := closeMinutes - graceBefore
    if currentMinutes < effectiveOpenMinutes then
      { isOpen := false
        currentTime := t
        closedReason := some (.beforeOpen config.openTime)
        nextOpenTime := some (getNextOpenTime config t)
        nextCloseTime := none }
    else if currentMinutes ≥ effectiveCloseMinutes then
      { isOpen := false
        currentTime := t
        closedReason := some (.afterClose config.closeTime)
        nextOpenTime := some (getNextOpenTime config t)
        nextCloseTime := none }
    else
      { isOpen := true
        currentTime := t
        closedReason := none
        nextOpenTime := none
        nextCloseTime := some (getNextCloseTime config t) }

/-- Effective open boundary: `openTime + graceAfterOpen` in minutes. -/
def effectiveOpen (config : MarketHoursConfig) : Int :=
  config.openTime.minutes + config.graceAfterOpen.getD 0

/-- Effective close boundary: `closeTime - graceBeforeClose` in minutes. -/
def effectiveClose (config : MarketHoursConfig) : Int :=
  config.closeTime.minutes - config.graceBeforeClose.getD 0

/-- Model of `market-hours.ts` `getUSMarketHoursConfig`.  The 2025 holiday dates are
the day indices of the corresponding calendar dates under the anchor
day 0 = Sunday 2024-12-29 (so 2025-01-01 is day 3, a Wednesday). -/
def getUSMarketHoursConfig : MarketHoursConfig :=
  { openTime := { hour := 9, min := 30 }
    closeTime := { hour := 16, min := 0 }
    openDays := [1, 2, 3, 4, 5]
    holidays := some [3, 22, 50, 110, 148, 187, 246, 333, 361]
    graceAfterOpen := some 15
    graceBeforeClose := some 15 }

/-!
The Scheduler of `scheduler.ts`.

* `task.execute()` is an async closure that either returns or throws; it is
  modelled by `execute : Option String`, where `none` means the call returns
  normally and `some s` means it throws a value whose `String(...)`
  representation is `s`.
* Event timestamps and result start/end times are wall-clock reads that no
  claim depends on; events are modelled by their type and payload shape, and
  a `TaskExecutionResult` by its id/name/success/error fields.
* Emission (`emit`) delivers an event to every subscriber; operations return
  the list of events they emit, in order.
* The repeating `setInterval` timer is modelled by the flag `timerArmed`
  (whether `intervalId` is set).
* `new Date()` reads within a cycle are modelled by the cycle-start instant
  `now` plus a stream `gateTime : Nat -> Timestamp` giving the fresh instant
  read by the per-task market re-check of the task at each position.
-/

/-- Model of `types.ts` `ScheduleConfig`. -/
structure ScheduleConfig where
  intervalMinutes : Int
  respectMarketHours : Bool
  marketHours : Option MarketHoursConfig
  timezone : Option String
  runOnStart : Option Bool
  maxConsecutiveErrors : Option Nat
  deriving DecidableEq, Repr

/-- Model of `types.ts` `ScheduledTask` (`execute` as the outcome of the call: `none`
returns normally, `some s` throws a value stringifying to `s`). -/
structure ScheduledTask where
  id : String
  name : String
  execute : Option String
  enabled : Bool
  priority : Option Int
  requiresMarketOpen : Option Bool
  deriving DecidableEq, Repr

/-- Model of `types.ts` `TaskExecutionResult` (timestamps/duration omitted: no claim
mentions them). -/
structure TaskExecutionResult where
  taskId : String
  taskName : String
  success : Bool
  error : Option String
  deriving DecidableEq, Repr

/-- Model of `types.ts` `SchedulerState`. -/
structure SchedulerState where
  isRunning : Bool
  lastRunTime : Option Timestamp
  nextRunTime : Option Timestamp
  totalRuns : Nat
  consecutiveErrors : Nat
  history : List TaskExecutionResult
  deriving DecidableEq, Repr

/-- Model of `types.ts` `SchedulerEventType`. -/
inductive SchedulerEventType where
  | start
  | stop
  | task_start
  | task_complete
  | task_error
  | market_closed
  | error
  deriving DecidableEq, Repr

/-- The shape of the `data` payload of a `SchedulerEvent`: each field is
present (`some`) exactly when the source object literal carries it. -/
structure EventPayload where
  taskId : Option String := none
  taskName : Option String := none
  result : Option TaskExecutionResult := none
  status : Option MarketStatus := none
  reason : Option String := none
  deriving DecidableEq, Repr

/-- Model of `types.ts` `SchedulerEvent` (timestamp omitted: no claim mentions it). -/
structure SchedulerEvent where
  type : SchedulerEventType
  data : Option EventPayload
  deriving DecidableEq, Repr

/-- Model of `scheduler.ts` `Scheduler` fields (the subscriber list is not stored:
operations return the events they emit). -/
structure Scheduler where
  config : ScheduleConfig
  tasks : List (String × ScheduledTask)
  state : SchedulerState
  timerArmed : Bool
  deriving DecidableEq, Repr

/-- The `Scheduler` constructor. -/
def mkScheduler (config : ScheduleConfig) : Scheduler :=
  { config := config
    tasks := []
    state :=
      { isRunning := false
        lastRunTime := none
        nextRunTime := none
        totalRuns := 0
        consecutiveErrors := 0
        history := [] }
    timerArmed := false }

/-- JS `Map.set`: replace in place if the key exists, else append. -/
def mapSet (m : List (String × ScheduledTask)) (k : String) (v : ScheduledTask) :
    List (String × ScheduledTask) :=
  if m.any (fun p => p.1 = k) then
    m.map (fun p => if p.1 = k then (k, v) else p)
  else m ++ [(k, v)]

/-- Model of `Scheduler.registerTask`: insert by id and emit `task_start` with a
payload holding only the task id. -/
def registerTask (s : Scheduler) (task : ScheduledTask) :
    Scheduler × List SchedulerEvent :=
  ({ s with tasks := mapSet s.tasks task.id task },
   [{ type := .task_start, data := some { taskId := some task.id } }])

/-- Model of `Scheduler.unregisterTask`. -/
def unregisterTask (s : Scheduler) (taskId : String) : Scheduler :=
  { s with tasks := s.tasks.filter (fun p => !(p.1 = taskId : Bool)) }

/-- Model of `Scheduler.enableTask`: set `enabled := true` on the task stored under
the id, if any. -/
def enableTask (s : Scheduler) (taskId : String) : Scheduler :=
  { s with tasks := s.tasks.map (fun p =>
      if p.1 = taskId then (p.1, { p.2 with enabled := true }) else p) }

/-- Model of `Scheduler.disableTask`. -/
def disableTask (s : Scheduler) (taskId : String) : Scheduler :=
  { s with tasks := s.tasks.map (fun p =>
      if p.1 = taskId then (p.1, { p.2 with enabled := false }) else p) }

/-- Model of `Scheduler.clearHistory`. -/
def clearHistory (s : Scheduler) : Scheduler :=
  { s with state := { s.state with history := [] } }

/-- Model of `task.priority ?? 0`. -/
def prioOf (t : ScheduledTask) : Int :=
  t.priority.getD 0

/-- Model of `Scheduler.stop`: no-op when not running; otherwise cancel the timer,
mark not running, emit `stop`. -/
def stopScheduler (s : Scheduler) : Scheduler × List SchedulerEvent :=
  if !s.state.isRunning then (s, [])
  else
    ({ s with
        timerArmed := false
        state := { s.state with isRunning := false } },
     [{ type := .stop, data := none }])

/-- Model of `Scheduler.executeTask`: emit `task_start` (with id and name); run the
body; on normal return build a success result and emit `task_complete`, on a
thrown value build a failure result with the stringified error and emit
`task_error`.  The thrown value never escapes: the function is total. -/
def executeTask (task : ScheduledTask) :
    TaskExecutionResult × List SchedulerEvent :=
  let startEv : SchedulerEvent :=
    { type := .task_start
      data := some { taskId := some task.id, taskName := some task.name } }
  match task.execute with
  | none =>
    let result : TaskExecutionResult :=
      { taskId := task.id, taskName := task.name, success := true,
        error := none }
    (result, [startEv, { type := .task_complete, data := some { result := some result } }])
  | some e =>
    let result : TaskExecutionResult :=
      { taskId := task.id, taskName := task.name, success := false,
        error := some e }
    (result, [startEv, { type := .task_error, data := some { result := some result } }])

/-- Insertion of a task into an already-processed list, keeping descending
priority and placing the inserted (earlier-registered) task before any task
of equal priority: the stable descending sort performed by
`sort((a, b) => (b.priority ?? 0) - (a.priority ?? 0))`
(JS `Array.prototype.sort` is specified stable). -/
def insertByPrio (x : ScheduledTask) : List ScheduledTask → List ScheduledTask
  | [] => [x]
  | y :: ys =>
    if prioOf x ≥ prioOf y then x :: y :: ys
    else y :: insertByPrio x ys

/-- Stable sort of tasks by descending `priority ?? 0`. -/
def sortByPrio : List ScheduledTask → List ScheduledTask
  | [] => []
  | x :: xs => insertByPrio x (sortByPrio xs)

/-- The enabled-task selection of `runTasks`:
`Array.from(tasks.values()).filter(t => t.enabled).sort(byPriorityDesc)`. -/
def selectTasks (tasks : List (String × ScheduledTask)) : List ScheduledTask :=
  sortByPrio ((tasks.map Prod.snd).filter (fun t => t.enabled))

/-- The per-task gating test inside the execution loop: the task is skipped
when it `requiresMarketOpen`, gating is configured, and the market is closed
at the fresh instant read for this task. -/
def skipsForMarket (config : ScheduleConfig) (task : ScheduledTask)
    (freshNow : Timestamp) : Bool :=
  task.requiresMarketOpen.getD false && config.respectMarketHours &&
    (match config.marketHours with
     | some mh => !(isMarketOpen mh freshNow).isOpen
     | none => false)

/-- The sequential execution loop of `runTasks` over the selected tasks,
collecting results and emitted events; `i` is the position used to index the
fresh `new Date()` stream of the per-task market re-check. -/
def runLoop (config : ScheduleConfig) (gateTime : Nat → Timestamp) :
    List ScheduledTask → Nat → List TaskExecutionResult × List SchedulerEvent
  | [], _ => ([], [])
  | task :: rest, i =>
    let tail := runLoop config gateTime rest (i + 1)
    if skipsForMarket config task (gateTime i) then tail
    else
      let r := executeTask task
      (r.1 :: tail.1, r.2 ++ tail.2)

/-- The cycle-level market gate of `runTasks`: `some status` when gating is
on, a market-hours config is present, and the market is closed at the cycle
start (the cycle then returns early), else `none`. -/
def marketGate (config : ScheduleConfig) (now : Timestamp) :
    Option MarketStatus :=
  if config.respectMarketHours then
    match config.marketHours with
    | some mh =>
      let status := isMarketOpen mh now
      if status.isOpen then none else some status
    | none => none
  else none

/-- Advance `now` by `m` minutes, normalising across day boundaries. -/
def addMinutes (t : Timestamp) (m : Int) : Timestamp :=
  let total := (t.day : Int) * 1440 + t.minuteOfDay + m
  { day := (total / 1440).toNat, minuteOfDay := total % 1440 }

/-- Model of `scheduler.ts` `runTasks`: record last/next run times; return early
(emitting `market_closed`) if gated closed; select and sort enabled tasks;
return early if none; run them sequentially; update totals, the bounded
history and the consecutive-error counter; and fire the circuit breaker
(`stop()` plus an `error` event) when the counter reaches
`maxConsecutiveErrors ?? 10`. -/
def runTasks (s : Scheduler) (now : Timestamp) (gateTime : Nat → Timestamp) :
    Scheduler × List SchedulerEvent :=
  let st0 := { s.state with
    lastRunTime := some now
    nextRunTime := some (addMinutes now s.config.intervalMinutes) }
  let s0 := { s with state := st0 }
  match marketGate s.config now with
  | some status =>
    (s0, [{ type := .market_closed, data := some { status := some status } }])
  | none =>
    let enabledTasks := selectTasks s.tasks
    if enabledTasks.isEmpty then (s0, [])
    else
      let outcome := runLoop s.config gateTime enabledTasks 0
      let results := outcome.1
      let hasError := results.any (fun r => !r.success)
      let grown := st0.history ++ results
      let bounded :=
        if grown.length > 100 then grown.drop (grown.length - 100) else grown
      let consec := if hasError then st0.consecutiveErrors + 1 else 0
      let s1 := { s0 with state := { st0 with
        totalRuns := st0.totalRuns + 1
        history := bounded
        consecutiveErrors := consec } }
      let maxErrors := s.config.maxConsecutiveErrors.getD 10
      if consec ≥ maxErrors then
        let stopped := stopScheduler s1
        (stopped.1,
         outcome.2 ++ stopped.2 ++
           [{ type := .error, data := some { reason := some "max_consecutive_errors" } }])
      else (s1, outcome.2)

/-- Model of `Scheduler.runNow`: one cycle, independent of the timer. -/
def runNow (s : Scheduler) (now : Timestamp) (gateTime : Nat → Timestamp) :
    Scheduler × List SchedulerEvent :=
  runTasks s now gateTime

/-- Model of `Scheduler.start`: no-op when already running; otherwise mark running,
emit `start`, arm the repeating timer, and — when `runOnStart` — run one
cycle (whose failure is caught, never propagated to the caller). -/
def startScheduler (s : Scheduler) (now : Timestamp)
    (gateTime : Nat → Timestamp) : Scheduler × List SchedulerEvent :=
  if s.state.isRunning then (s, [])
  else
    let s1 := { s with
      timerArmed := true
      state := { s.state with isRunning := true } }
    if s.config.runOnStart.getD false then
      let ran := runTasks s1 now gateTime
      (ran.1, { type := .start, data := none } :: ran.2)
    else (s1, [{ type := .start, data := none }])

/-- The public operations of a `Scheduler`, for stating invariants over
arbitrary operation sequences. -/
inductive SchedulerOp where
  | tick (now : Timestamp) (gateTime : Nat → Timestamp)
  | runNowOp (now : Timestamp) (gateTime : Nat → Timestamp)
  | startOp (now : Timestamp) (gateTime : Nat → Timestamp)
  | stopOp
  | registerTaskOp (task : ScheduledTask)
  | unregisterTaskOp (taskId : String)
  | enableTaskOp (taskId : String)
  | disableTaskOp (taskId : String)
  | clearHistoryOp

/-- Apply one public operation to a scheduler (dropping emitted events). -/
def applyOp (s : Scheduler) : SchedulerOp → Scheduler
  | .tick now gateTime => (runTasks s now gateTime).1
  | .runNowOp now gateTime => (runNow s now gateTime).1
  | .startOp now gateTime => (startScheduler s now gateTime).1
  | .stopOp => (stopScheduler s).1
  | .registerTaskOp task => (registerTask s task).1
  | .unregisterTaskOp taskId => unregisterTask s taskId
  | .enableTaskOp taskId => enableTask s taskId
  | .disableTaskOp taskId => disableTask s taskId
  | .clearHistoryOp => clearHistory s

/-- Operations whose application performs no cycle (`start` counts only when
`runOnStart` is off, since `runOnStart` triggers an immediate cycle). -/
def cycleFree (s : Scheduler) : SchedulerOp → Bool
  | .tick _ _ => false
  | .runNowOp _ _ => false
  | .startOp _ _ => !(s.config.runOnStart.getD false)
  | _ => true

/-!
The TradingOrchestrator of `orchestrator.ts`.  The three default task bodies
(`monitorPositions`, `scanForEntries`, `manageRolls`) log and return on every
path — in dry-run they print the steps they would take, outside dry-run they
print a not-yet-implemented notice — so their call outcome is `none`
(normal return).
-/

/-- Model of `types.ts` `OrchestratorConfig`. -/
structure OrchestratorConfig where
  schedule : ScheduleConfig
  enablePositionMonitoring : Bool
  enableEntryScanning : Bool
  enableRollManagement : Bool
  dryRun : Bool
  deriving DecidableEq, Repr

/-- The three feature flags accepted by `setFeatureEnabled`. -/
inductive FeatureFlag where
  | enablePositionMonitoring
  | enableEntryScanning
  | enableRollManagement
  deriving DecidableEq, Repr

/-- The fixed `taskMap` of `setFeatureEnabled`. -/
def taskIdFor : FeatureFlag → String
  | .enablePositionMonitoring => "position-monitor"
  | .enableEntryScanning => "entry-scanner"
  | .enableRollManagement => "roll-manager"

/-- Read one feature flag from the config. -/
def getFlag (config : OrchestratorConfig) : FeatureFlag → Bool
  | .enablePositionMonitoring => config.enablePositionMonitoring
  | .enableEntryScanning => config.enableEntryScanning
  | .enableRollManagement => config.enableRollManagement

/-- Model of `this.config[feature] = enabled`. -/
def setFlag (config : OrchestratorConfig) : FeatureFlag → Bool → OrchestratorConfig
  | .enablePositionMonitoring, b => { config with enablePositionMonitoring := b }
  | .enableEntryScanning, b => { config with enableEntryScanning := b }
  | .enableRollManagement, b => { config with enableRollManagement := b }

/-- Model of `orchestrator.ts` `TradingOrchestrator` fields. -/
structure TradingOrchestrator where
  config : OrchestratorConfig
  scheduler : Scheduler
  deriving DecidableEq, Repr

/-- The `position-monitor` default task. -/
def monitorTask : ScheduledTask :=
  { id := "position-monitor"
    name := "Monitor Positions for Exit/Roll"
    execute := none
    enabled := true
    priority := some 100
    requiresMarketOpen := some true }

/-- The `entry-scanner` default task. -/
def scanTask : ScheduledTask :=
  { id := "entry-scanner"
    name := "Scan for Entry Opportunities"
    execute := none
    enabled := true
    priority := some 50
    requiresMarketOpen := some true }

/-- The `roll-manager` default task. -/
def rollTask : ScheduledTask :=
  { id := "roll-manager"
    name := "Check Positions for Rolling"
    execute := none
    enabled := true
    priority := some 75
    requiresMarketOpen := some true }

/-- The `TradingOrchestrator` constructor: default the market hours if
absent, create the scheduler, and register the default tasks (position
monitor, then entry scanner, then roll manager) conditionally on their
feature flags. -/
def mkTradingOrchestrator (config : OrchestratorConfig) : TradingOrchestrator :=
  let schedule :=
    match config.schedule.marketHours with
    | none => { config.schedule with marketHours := some getUSMarketHoursConfig }
    | some _ => config.schedule
  let s0 := mkScheduler schedule
  let s1 := if config.enablePositionMonitoring then (registerTask s0 monitorTask).1 else s0
  let s2 := if config.enableEntryScanning then (registerTask s1 scanTask).1 else s1
  let s3 := if config.enableRollManagement then (registerTask s2 rollTask).1 else s2
  { config := { config with schedule := schedule }, scheduler := s3 }

/-- Model of `TradingOrchestrator.setFeatureEnabled`: update the config flag and
enable/disable the task under the mapped fixed id. -/
def setFeatureEnabled (o : TradingOrchestrator) (feature : FeatureFlag)
    (enabled : Bool) : TradingOrchestrator :=
  { config := setFlag o.config feature enabled
    scheduler :=
      if enabled then enableTask o.scheduler (taskIdFor feature)
      else disableTask o.scheduler (taskIdFor feature) }

/-- Look a task up by id (JS `Map.get`). -/
def lookupTask (s : Scheduler) (taskId : String) : Option ScheduledTask :=
  (s.tasks.find? (fun p => p.1 = taskId)).map Prod.snd

/-! ### Lemmas about the market-hours oracle -/

/-- The weekday loop never moves backwards. -/
theorem nextOpenDayLoop_le (openDays : List Nat) :
    ∀ (fuel d : Nat), d ≤ nextOpenDayLoop openDays fuel d := by
  intro fuel
  induction fuel with
  | zero => intro d; simp [nextOpenDayLoop]
  | succ n ih =>
    intro d
    simp only [nextOpenDayLoop]
    split
    · exact Nat.le_refl d
    · exact Nat.le_trans (Nat.le_succ d) (ih (d + 1))

/-- The holiday loop never moves backwards. -/
theorem skipHolidayLoop_le (config : MarketHoursConfig) :
    ∀ (fuel d : Nat), d ≤ skipHolidayLoop config fuel d := by
  intro fuel
  induction fuel with
  | zero => intro d; simp [skipHolidayLoop]
  | succ n ih =>
    intro d
    simp only [skipHolidayLoop]
    split
    · exact Nat.le_trans
        (Nat.le_trans (Nat.le_succ d) (nextOpenDayLoop_le config.openDays 7 (d + 1)))
        (ih _)
    · exact Nat.le_refl d

/-- The next-open computation always lands strictly after the query day, at
the configured open time. -/
theorem getNextOpenTime_later (config : MarketHoursConfig) (t : Timestamp) :
    t.day < (getNextOpenTime config t).day
      ∧ (getNextOpenTime config t).minuteOfDay = config.openTime.minutes := by
  constructor
  · show t.day < skipHolidayLoop config _ (nextOpenDayLoop config.openDays 7 (t.day + 1))
    exact Nat.lt_of_lt_of_le
      (Nat.lt_of_lt_of_le (Nat.lt_succ_self t.day)
        (nextOpenDayLoop_le config.openDays 7 (t.day + 1)))
      (skipHolidayLoop_le config _ _)
  · rfl

/-- If some position strictly below the fuel bound satisfies the weekday
guard, the weekday loop stops on a day satisfying the guard. -/
theorem nextOpenDayLoop_guard (openDays : List Nat) :
    ∀ (fuel d j : Nat), j < fuel →
      openDays.contains (dayOfWeek (d + j)) = true →
      openDays.contains (dayOfWeek (nextOpenDayLoop openDays fuel d)) = true := by
  intro fuel
  induction fuel with
  | zero => intro d j hj _; exact absurd hj (Nat.not_lt_zero j)
  | succ n ih =>
    intro d j hj hcont
    simp only [nextOpenDayLoop]
    split
    · rename_i hg
      exact hg
    · rename_i hg
      cases j with
      | zero => exact absurd (by simpa using hcont) hg
      | succ k =>
        apply ih (d + 1) k (by omega)
        have hshift : d + 1 + k = d + (k + 1) := by omega
        rw [hshift]
        exact hcont

/-- When `openDays` contains some weekday residue, fuel 7 always suffices:
the weekday loop lands on a day whose weekday is in `openDays`. -/
theorem nextOpenDayLoop_reaches (openDays : List Nat) (r : Nat)
    (hr : openDays.contains r = true) (hr7 : r < 7) (d : Nat) :
    openDays.contains (dayOfWeek (nextOpenDayLoop openDays 7 d)) = true := by
  apply nextOpenDayLoop_guard openDays 7 d ((r + 7 - d % 7) % 7)
  · exact Nat.mod_lt _ (by omega)
  · have hdw : dayOfWeek (d + (r + 7 - d % 7) % 7) = r := by
      unfold dayOfWeek
      omega
    rw [hdw]
    exact hr

/-- The holiday loop preserves the weekday guard: its result day's weekday
is in `openDays` whenever the input day's is (any re-run of the weekday
loop re-establishes the guard). -/
theorem skipHolidayLoop_guard (config : MarketHoursConfig) (r : Nat)
    (hr : config.openDays.contains r = true) (hr7 : r < 7) :
    ∀ (fuel d : Nat),
      config.openDays.contains (dayOfWeek d) = true →
      config.openDays.contains (dayOfWeek (skipHolidayLoop config fuel d)) = true := by
  intro fuel
  induction fuel with
  | zero => intro d hd; simpa [skipHolidayLoop] using hd
  | succ n ih =>
    intro d hd
    simp only [skipHolidayLoop]
    split
    · exact ih _ (nextOpenDayLoop_reaches config.openDays r hr hr7 (d + 1))
    · exact hd

/-- A pointwise-weaker Boolean filter keeps at most as many elements. -/
theorem length_filter_le_of_imp {p q : Nat → Bool}
    (himp : ∀ x, q x = true → p x = true) :
    ∀ (l : List Nat), (l.filter q).length ≤ (l.filter p).length := by
  intro l
  induction l with
  | nil => exact Nat.le_refl 0
  | cons x xs ih =>
    by_cases hq : q x = true
    · rw [List.filter_cons, List.filter_cons, if_pos hq, if_pos (himp x hq)]
      simpa using ih
    · rw [List.filter_cons, if_neg hq, List.filter_cons]
      split
      · simp only [List.length_cons]
        omega
      · exact ih

/-- A pointwise-weaker Boolean filter that also drops a present element
keeps strictly fewer elements. -/
theorem length_filter_lt_of_mem {p q : Nat → Bool}
    (himp : ∀ x, q x = true → p x = true) :
    ∀ (l : List Nat) (a : Nat), a ∈ l → p a = true → q a = false →
      (l.filter q).length < (l.filter p).length := by
  intro l
  induction l with
  | nil => intro a ha _ _; exact absurd ha (List.not_mem_nil a)
  | cons x xs ih =>
    intro a ha hpa hqa
    rcases List.mem_cons.mp ha with rfl | hmem
    · rw [List.filter_cons, List.filter_cons, if_pos hpa, if_neg (by simp [hqa])]
      exact Nat.lt_succ_of_le (length_filter_le_of_imp himp xs)
    · have hlt := ih a hmem hpa hqa
      rw [List.filter_cons, List.filter_cons]
      by_cases hq : q x = true
      · rw [if_pos hq, if_pos (himp x hq)]
        simpa using hlt
      · rw [if_neg hq]
        split
        · simp only [List.length_cons]
          omega
        · exact hlt

/-- With fuel exceeding the number of holidays at or after the start day,
the holiday loop stops on a non-holiday day: each iteration starts at a
distinct holiday and moves strictly forward, so the count of remaining
holidays strictly decreases. -/
theorem skipHolidayLoop_clear (config : MarketHoursConfig) :
    ∀ (fuel d : Nat),
      ((config.holidays.getD []).filter (fun h => d ≤ h)).length < fuel →
      (config.holidays.getD []).contains (skipHolidayLoop config fuel d) = false := by
  intro fuel
  induction fuel with
  | zero => intro d hcount; exact absurd hcount (Nat.not_lt_zero _)
  | succ n ih =>
    intro d hcount
    simp only [skipHolidayLoop]
    split
    · rename_i hg
      apply ih
      have hd1 : d + 1 ≤ nextOpenDayLoop config.openDays 7 (d + 1) :=
        nextOpenDayLoop_le config.openDays 7 (d + 1)
      have hmem : d ∈ config.holidays.getD [] := by
        simpa using hg
      have hlt := length_filter_lt_of_mem
        (p := fun h => decide (d ≤ h))
        (q := fun h => decide (nextOpenDayLoop config.openDays 7 (d + 1) ≤ h))
        (fun x hx => by
          simp only [decide_eq_true_eq] at hx ⊢
          omega)
        (config.holidays.getD []) d hmem
        (by simp)
        (by simp only [decide_eq_false_iff_not]; omega)
      omega
    · rename_i hg
      exact Bool.eq_false_iff.mpr hg

/-- The next-open computation lands on an eligible day: its weekday is in
`openDays` and it is not a holiday (given today's weekday is in `openDays`,
which makes the loop fuel sufficient). -/
theorem getNextOpenTime_eligible (config : MarketHoursConfig) (t : Timestamp)
    (hd : config.openDays.contains (dayOfWeek t.day) = true) :
    config.openDays.contains (dayOfWeek (getNextOpenTime config t).day) = true
      ∧ (config.holidays.getD []).contains (getNextOpenTime config t).day
          = false := by
  have hr7 : dayOfWeek t.day < 7 := Nat.mod_lt _ (by omega)
  constructor
  · exact skipHolidayLoop_guard config _ hd hr7 _ _
      (nextOpenDayLoop_reaches config.openDays _ hd hr7 (t.day + 1))
  · apply skipHolidayLoop_clear config
    have hle := List.length_filter_le
      (fun h => decide (nextOpenDayLoop config.openDays 7 (t.day + 1) ≤ h))
      (config.holidays.getD [])
    omega

/-- C2, amended: on an open, non-holiday weekday strictly before the
effective open, the market is reported closed and `nextOpenTime` always
rolls to a strictly later eligible day — a day after today whose weekday is
in `openDays` and which is not a holiday — at the configured open time; it
is never today's open time, even when today's open time has not yet
passed. -/
theorem before_open_rolls_to_later_day (config : MarketHoursConfig)
    (t : Timestamp)
    (hd : config.openDays.contains (dayOfWeek t.day) = true)
    (hh : (config.holidays.getD []).contains t.day = false)
    (hm : t.minuteOfDay < effectiveOpen config) :
    (isMarketOpen config t).isOpen = false
      ∧ (isMarketOpen config t).nextOpenTime = some (getNextOpenTime config t)
      ∧ t.day < (getNextOpenTime config t).day
      ∧ (getNextOpenTime config t).minuteOfDay = config.openTime.minutes
      ∧ config.openDays.contains (dayOfWeek (getNextOpenTime config t).day) = true
      ∧ (config.holidays.getD []).contains (getNextOpenTime config t).day
          = false := by
  simp only [effectiveOpen] at hm
  refine ⟨?_, ?_, (getNextOpenTime_later config t).1,
    (getNextOpenTime_later config t).2,
    (getNextOpenTime_eligible config t hd).1,
    (getNextOpenTime_eligible config t hd).2⟩
  · simp only [isMarketOpen, hd, hh, Bool.not_true, Bool.false_eq_true, if_false,
      if_true, hm, if_pos]
  · simp only [isMarketOpen, hd, hh, Bool.not_true, Bool.false_eq_true, if_false,
      if_true, hm, if_pos]

/-- C2, counterexample to the claim as stated: on a Thursday (day 4) at
09:00 with the US-style hours and no holidays, today's 09:30 open has not
yet passed, yet `nextOpenTime` is Friday's open, not today's. -/
theorem before_open_next_is_not_today :
    let config : MarketHoursConfig :=
      { openTime := { hour := 9, min := 30 }
        closeTime := { hour := 16, min := 0 }
        openDays := [1, 2, 3, 4, 5]
        holidays := some []
        graceAfterOpen := some 15
        graceBeforeClose := some 15 }
    let t : Timestamp := { day := 4, minuteOfDay := 540 }
    config.openDays.contains (dayOfWeek t.day) = true
      ∧ (config.holidays.getD []).contains t.day = false
      ∧ t.minuteOfDay < effectiveOpen config
      ∧ t.minuteOfDay < config.openTime.minutes
      ∧ (isMarketOpen config t).isOpen = false
      ∧ (isMarketOpen config t).nextOpenTime
          = some { day := 5, minuteOfDay := 570 }
      ∧ (isMarketOpen config t).nextOpenTime
          ≠ some { day := t.day, minuteOfDay := config.openTime.minutes } := by
  decide

/-- C3: on an open, non-holiday weekday with a non-empty trading window, the
minute exactly `openTime + graceAfterOpen` is reported open, while the
minute exactly `closeTime - graceBeforeClose` is reported closed. -/
theorem grace_boundaries (config : MarketHoursConfig) (d : Nat)
    (hd : config.openDays.contains (dayOfWeek d) = true)
    (hh : (config.holidays.getD []).contains d = false)
    (hw : effectiveOpen config < effectiveClose config) :
    (isMarketOpen config { day := d, minuteOfDay := effectiveOpen config }).isOpen
        = true
      ∧ (isMarketOpen config { day := d, minuteOfDay := effectiveClose config }).isOpen
        = false := by
  constructor
  · simp only [isMarketOpen, hd, hh, Bool.not_true, Bool.false_eq_true, if_false,
      if_true, effectiveOpen, effectiveClose] at *
    rw [if_neg (lt_irrefl _), if_neg (not_le.mpr hw)]
  · simp only [isMarketOpen, hd, hh, Bool.not_true, Bool.false_eq_true, if_false,
      if_true, effectiveOpen, effectiveClose] at *
    rw [if_neg (not_lt.mpr (le_of_lt hw)), if_pos (le_refl _)]

/-- Witness for `grace_boundaries` at the default US market hours on day 4
(a Thursday, not a 2025 holiday): 09:45 is open, 15:45 is closed. -/
theorem grace_boundaries_witness :
    getUSMarketHoursConfig.openDays.contains (dayOfWeek 4) = true
      ∧ (getUSMarketHoursConfig.holidays.getD []).contains 4 = false
      ∧ effectiveOpen getUSMarketHoursConfig < effectiveClose getUSMarketHoursConfig
      ∧ (isMarketOpen getUSMarketHoursConfig
          { day := 4, minuteOfDay := effectiveOpen getUSMarketHoursConfig }).isOpen
          = true
      ∧ (isMarketOpen getUSMarketHoursConfig
          { day := 4, minuteOfDay := effectiveClose getUSMarketHoursConfig }).isOpen
          = false :=
  ⟨by decide, by decide, by decide,
   (grace_boundaries getUSMarketHoursConfig 4 (by decide) (by decide) (by decide)).1,
   (grace_boundaries getUSMarketHoursConfig 4 (by decide) (by decide) (by decide)).2⟩

/-- Witness for `before_open_rolls_to_later_day` at the default US market
hours on day 4 (a Thursday) at 09:00: closed, rolled to a strictly later
day whose weekday is an open day and which is not a holiday. -/
theorem before_open_rolls_witness :
    getUSMarketHoursConfig.openDays.contains (dayOfWeek 4) = true
      ∧ (getUSMarketHoursConfig.holidays.getD []).contains 4 = false
      ∧ (540 : Int) < effectiveOpen getUSMarketHoursConfig
      ∧ (isMarketOpen getUSMarketHoursConfig { day := 4, minuteOfDay := 540 }).isOpen
          = false
      ∧ 4 < (getNextOpenTime getUSMarketHoursConfig { day := 4, minuteOfDay := 540 }).day
      ∧ getUSMarketHoursConfig.openDays.contains
          (dayOfWeek (getNextOpenTime getUSMarketHoursConfig
            { day := 4, minuteOfDay := 540 }).day) = true
      ∧ (getUSMarketHoursConfig.holidays.getD []).contains
          (getNextOpenTime getUSMarketHoursConfig
            { day := 4, minuteOfDay := 540 }).day = false :=
  ⟨by decide, by decide, by decide,
   (before_open_rolls_to_later_day getUSMarketHoursConfig
      { day := 4, minuteOfDay := 540 } (by decide) (by decide) (by decide)).1,
   (before_open_rolls_to_later_day getUSMarketHoursConfig
      { day := 4, minuteOfDay := 540 } (by decide) (by decide) (by decide)).2.2.1,
   (before_open_rolls_to_later_day getUSMarketHoursConfig
      { day := 4, minuteOfDay := 540 } (by decide) (by decide) (by decide)).2.2.2.2.1,
   (before_open_rolls_to_later_day getUSMarketHoursConfig
      { day := 4, minuteOfDay := 540 } (by decide) (by decide) (by decide)).2.2.2.2.2⟩

/-! ### Lemmas about single operations of the Scheduler -/

/-- C10: registering a task emits one `task_start` event whose payload
carries only the task id — no `taskName`, no result — and performs no
execution: the scheduler state (counters, history, run flags) is untouched.
The event therefore does not correspond to any task execution. -/
theorem register_emits_bare_task_start (s : Scheduler) (task : ScheduledTask) :
    (registerTask s task).2
        = [{ type := .task_start
             data := some { taskId := some task.id, taskName := none,
                            result := none, status := none, reason := none } }]
      ∧ (registerTask s task).1.state = s.state := by
  exact ⟨rfl, rfl⟩

/-- C5: a task whose body throws is absorbed into a failure result — the
single-task execution is a total function returning `success = false` with
the stringified thrown value, and it emits `task_error` carrying exactly
that result (after the initial `task_start`).  No exception propagates, so
`runNow` (which is `runTasks` on these results) resolves normally even when
every selected task fails. -/
theorem task_failure_absorbed (task : ScheduledTask) (e : String)
    (h : task.execute = some e) :
    (executeTask task).1.success = false
      ∧ (executeTask task).1.error = some e
      ∧ (executeTask task).1.taskId = task.id
      ∧ (executeTask task).1.taskName = task.name
      ∧ (executeTask task).2
          = [{ type := .task_start
               data := some { taskId := some task.id, taskName := some task.name } },
             { type := .task_error
               data := some { result := some (executeTask task).1 } }] := by
  simp [executeTask, h]

/-- A concrete always-throwing task, for witnesses. -/
def boomTask : ScheduledTask :=
  { id := "t1"
    name := "T1"
    execute := some "Error: boom"
    enabled := true
    priority := none
    requiresMarketOpen := none }

/-- Witness for `task_failure_absorbed` on a concrete throwing task. -/
theorem task_failure_absorbed_witness :
    boomTask.execute = some "Error: boom"
      ∧ (executeTask boomTask).1.success = false :=
  ⟨rfl, (task_failure_absorbed boomTask "Error: boom" rfl).1⟩

/-- C4: a gated cycle that finds the market closed at its start emits
exactly one `market_closed` event carrying the `MarketStatus` and leaves
`totalRuns`, `consecutiveErrors`, the history and the task registry exactly
as they were; no task runs (the single emitted event is not a task event). -/
theorem market_closed_cycle_frame (s : Scheduler) (now : Timestamp)
    (gateTime : Nat → Timestamp) (mh : MarketHoursConfig)
    (hr : s.config.respectMarketHours = true)
    (hm : s.config.marketHours = some mh)
    (hc : (isMarketOpen mh now).isOpen = false) :
    (runTasks s now gateTime).2
        = [{ type := .market_closed
             data := some { status := some (isMarketOpen mh now) } }]
      ∧ (runTasks s now gateTime).1.state.totalRuns = s.state.totalRuns
      ∧ (runTasks s now gateTime).1.state.consecutiveErrors
          = s.state.consecutiveErrors
      ∧ (runTasks s now gateTime).1.state.history = s.state.history
      ∧ (runTasks s now gateTime).1.tasks = s.tasks := by
  have hg : marketGate s.config now = some (isMarketOpen mh now) := by
    simp only [marketGate, hr, hm, hc, if_true, Bool.false_eq_true, if_false]
  simp [runTasks, hg]

/-- A concrete scheduler gated on the US market hours, for witnesses. -/
def gatedScheduler : Scheduler :=
  mkScheduler
    { intervalMinutes := 15
      respectMarketHours := true
      marketHours := some getUSMarketHoursConfig
      timezone := none
      runOnStart := none
      maxConsecutiveErrors := none }

/-- Witness for `market_closed_cycle_frame`: the gated scheduler queried on
day 0 (a Sunday). -/
theorem market_closed_cycle_frame_witness :
    gatedScheduler.config.respectMarketHours = true
      ∧ gatedScheduler.config.marketHours = some getUSMarketHoursConfig
      ∧ (isMarketOpen getUSMarketHoursConfig { day := 0, minuteOfDay := 600 }).isOpen
          = false
      ∧ (runTasks gatedScheduler { day := 0, minuteOfDay := 600 }
            (fun _ => { day := 0, minuteOfDay := 600 })).1.state.totalRuns
          = gatedScheduler.state.totalRuns :=
  ⟨rfl, rfl, by decide,
   (market_closed_cycle_frame _ _ _ getUSMarketHoursConfig rfl rfl
      (by decide)).2.1⟩

/-! ### Lemmas about the priority sort and the execution loop -/

/-- Membership through priority insertion. -/
theorem mem_insertByPrio {a x : ScheduledTask} :
    ∀ {l : List ScheduledTask}, a ∈ insertByPrio x l ↔ a = x ∨ a ∈ l := by
  intro l
  induction l with
  | nil => simp [insertByPrio]
  | cons y ys ih =>
    simp only [insertByPrio]
    split
    · simp [List.mem_cons]
    · simp only [List.mem_cons, ih]
      tauto

/-- Membership through the priority sort. -/
theorem mem_sortByPrio {a : ScheduledTask} :
    ∀ {l : List ScheduledTask}, a ∈ sortByPrio l ↔ a ∈ l := by
  intro l
  induction l with
  | nil => simp [sortByPrio]
  | cons x xs ih =>
    simp only [sortByPrio, mem_insertByPrio, ih, List.mem_cons]

/-- Insertion preserves the descending-priority pairwise order. -/
theorem pairwise_insertByPrio {x : ScheduledTask} :
    ∀ {l : List ScheduledTask},
      l.Pairwise (fun a b => prioOf b ≤ prioOf a) →
      (insertByPrio x l).Pairwise (fun a b => prioOf b ≤ prioOf a) := by
  intro l
  induction l with
  | nil => intro _; simp [insertByPrio]
  | cons y ys ih =>
    intro h
    rw [List.pairwise_cons] at h
    simp only [insertByPrio]
    split
    · rename_i hxy
      rw [List.pairwise_cons]
      refine ⟨?_, List.pairwise_cons.mpr h⟩
      intro b hb
      rcases List.mem_cons.mp hb with rfl | hb
      · exact hxy
      · exact (h.1 b hb).trans hxy
    · rename_i hxy
      rw [List.pairwise_cons]
      refine ⟨?_, ih h.2⟩
      intro b hb
      rcases mem_insertByPrio.mp hb with rfl | hb
      · exact le_of_lt (lt_of_not_le hxy)
      · exact h.1 b hb

/-- The priority sort is pairwise non-increasing on `priority ?? 0`. -/
theorem pairwise_sortByPrio :
    ∀ (l : List ScheduledTask),
      (sortByPrio l).Pairwise (fun a b => prioOf b ≤ prioOf a) := by
  intro l
  induction l with
  | nil => simp [sortByPrio]
  | cons x xs ih => exact pairwise_insertByPrio ih

/-- Boolean check that consecutive priorities are non-increasing. -/
def sortedDescByPrio : List ScheduledTask → Bool
  | [] => true
  | [_] => true
  | a :: b :: rest => decide (prioOf b ≤ prioOf a) && sortedDescByPrio (b :: rest)

/-- Pairwise non-increasing priorities imply the Boolean check. -/
theorem sortedDescByPrio_of_pairwise :
    ∀ {l : List ScheduledTask},
      l.Pairwise (fun a b => prioOf b ≤ prioOf a) → sortedDescByPrio l = true := by
  intro l
  induction l with
  | nil => intro _; rfl
  | cons a rest ih =>
    intro h
    rw [List.pairwise_cons] at h
    match rest, h with
    | [], _ => rfl
    | b :: rest, h =>
      simp only [sortedDescByPrio, Bool.and_eq_true, decide_eq_true_eq]
      exact ⟨h.1 b (List.mem_cons_self b rest), ih h.2⟩

/-- Filtering at a fixed priority commutes with insertion: the inserted task
lands in front of the equal-priority block (stability of the insertion). -/
theorem filter_prio_insertByPrio (x : ScheduledTask) (p : Int) :
    ∀ (l : List ScheduledTask),
      (insertByPrio x l).filter (fun t => prioOf t == p)
        = if prioOf x == p then x :: l.filter (fun t => prioOf t == p)
          else l.filter (fun t => prioOf t == p) := by
  intro l
  induction l with
  | nil =>
    by_cases hx : prioOf x = p <;>
      simp [insertByPrio, List.filter_cons, beq_iff_eq, hx]
  | cons y ys ih =>
    simp only [insertByPrio]
    split
    · rename_i hxy
      by_cases hx : prioOf x = p <;>
        simp [List.filter_cons, beq_iff_eq, hx]
    · rename_i hxy
      have hlt : prioOf x < prioOf y := lt_of_not_le hxy
      by_cases hx : prioOf x = p
      · have hy : ¬(prioOf y = p) := by
          intro hy
          rw [hx] at hlt
          rw [hy] at hlt
          exact lt_irrefl p hlt
        simp [List.filter_cons, beq_iff_eq, hx, hy, ih]
      · by_cases hy : prioOf y = p <;>
          simp [List.filter_cons, beq_iff_eq, hx, hy, ih]

/-- Stability of the sort: for every priority value, the sorted list and the
input list agree on the sublist of tasks having that priority — ties keep
their original (registration) order. -/
theorem filter_prio_sortByPrio (p : Int) :
    ∀ (l : List ScheduledTask),
      (sortByPrio l).filter (fun t => prioOf t == p)
        = l.filter (fun t => prioOf t == p) := by
  intro l
  induction l with
  | nil => rfl
  | cons x xs ih =>
    simp only [sortByPrio, filter_prio_insertByPrio, ih]
    by_cases hx : prioOf x = p <;>
      simp [List.filter_cons, beq_iff_eq, hx]

/-- The execution loop only ever produces results of tasks from its input
list, in input order: its result list is a sublist of the per-task results
of the selected tasks (tasks skipped by the per-task market check drop out,
the rest keep their order). -/
theorem runLoop_results_sublist (config : ScheduleConfig)
    (gateTime : Nat → Timestamp) :
    ∀ (l : List ScheduledTask) (i : Nat),
      List.Sublist (runLoop config gateTime l i).1
        (l.map (fun t => (executeTask t).1)) := by
  intro l
  induction l with
  | nil => intro i; simp [runLoop]
  | cons t rest ih =>
    intro i
    simp only [runLoop, List.map_cons]
    split
    · exact List.Sublist.cons _ (ih (i + 1))
    · exact List.Sublist.cons₂ _ (ih (i + 1))

/-- C6: in every cycle, the selected task list contains only enabled tasks,
is non-increasing in `priority ?? 0`, preserves registration order among
equal priorities, and the executed results are exactly those of a sublist of
that selection (in order): no disabled task is ever executed, and results
appear in non-increasing priority order with ties in registration order. -/
theorem cycle_respects_enabled_and_priority (config : ScheduleConfig)
    (gateTime : Nat → Timestamp) (tasks : List (String × ScheduledTask)) :
    ((selectTasks tasks).all (fun t => t.enabled)) = true
      ∧ sortedDescByPrio (selectTasks tasks) = true
      ∧ (∀ p : Int,
          (selectTasks tasks).filter (fun t => prioOf t == p)
            = ((tasks.map Prod.snd).filter (fun t => t.enabled)).filter
                (fun t => prioOf t == p))
      ∧ List.Sublist (runLoop config gateTime (selectTasks tasks) 0).1
          ((selectTasks tasks).map (fun t => (executeTask t).1)) := by
  refine ⟨?_, ?_, ?_, runLoop_results_sublist config gateTime _ 0⟩
  · rw [List.all_eq_true]
    intro t ht
    have := mem_sortByPrio.mp ht
    exact (List.mem_filter.mp this).2
  · exact sortedDescByPrio_of_pairwise (pairwise_sortByPrio _)
  · intro p
    exact filter_prio_sortByPrio p _

/-! ### The bounded-history invariant -/

/-- Stopping never touches the state apart from `isRunning` (and the
timer). -/
theorem stopScheduler_state (s : Scheduler) :
    (stopScheduler s).1.state.history = s.state.history
      ∧ (stopScheduler s).1.state.totalRuns = s.state.totalRuns
      ∧ (stopScheduler s).1.state.consecutiveErrors = s.state.consecutiveErrors
      ∧ (stopScheduler s).1.tasks = s.tasks := by
  simp only [stopScheduler]
  split <;> exact ⟨rfl, rfl, rfl, rfl⟩

/-- Truncation to the last 100 entries keeps the history within the bound:
over the bound it drops to exactly 100, otherwise it was at most 100. -/
theorem boundedHistory_le (h res : List TaskExecutionResult) :
    (if (h ++ res).length > 100
        then (h ++ res).drop ((h ++ res).length - 100)
        else h ++ res).length ≤ 100 := by
  split
  · rw [List.length_drop]
    omega
  · rename_i hx
    omega

/-- Stopping keeps the history within the bound. -/
theorem stopScheduler_history_le (s : Scheduler)
    (h : s.state.history.length ≤ 100) :
    (stopScheduler s).1.state.history.length ≤ 100 := by
  rw [(stopScheduler_state s).1]
  exact h

/-- A cycle leaves the history at no more than 100 entries whenever it was
within the bound before the cycle. -/
theorem runTasks_history_le (s : Scheduler) (now : Timestamp)
    (gateTime : Nat → Timestamp)
    (h : s.state.history.length ≤ 100) :
    (runTasks s now gateTime).1.state.history.length ≤ 100 := by
  simp only [runTasks]
  split
  · exact h
  · split
    · exact h
    · split <;> split <;>
        first
          | exact stopScheduler_history_le _ (boundedHistory_le _ _)
          | exact boundedHistory_le _ _

/-- Starting the scheduler leaves the history within the bound whenever it
was within the bound before. -/
theorem startScheduler_history_le (s : Scheduler) (now : Timestamp)
    (gateTime : Nat → Timestamp)
    (h : s.state.history.length ≤ 100) :
    (startScheduler s now gateTime).1.state.history.length ≤ 100 := by
  simp only [startScheduler]
  split
  · exact h
  · split
    · exact runTasks_history_le _ now gateTime h
    · exact h

/-- Every public operation leaves the history within the bound whenever it
was within the bound before. -/
theorem applyOp_history_le (s : Scheduler) (op : SchedulerOp)
    (h : s.state.history.length ≤ 100) :
    (applyOp s op).state.history.length ≤ 100 := by
  cases op with
  | tick now gateTime => exact runTasks_history_le s now gateTime h
  | runNowOp now gateTime => exact runTasks_history_le s now gateTime h
  | startOp now gateTime => exact startScheduler_history_le s now gateTime h
  | stopOp =>
    show (stopScheduler s).1.state.history.length ≤ 100
    rw [(stopScheduler_state s).1]
    exact h
  | registerTaskOp task => exact h
  | unregisterTaskOp taskId => exact h
  | enableTaskOp taskId => exact h
  | disableTaskOp taskId => exact h
  | clearHistoryOp => exact Nat.zero_le 100

/-- C7: starting from a fresh scheduler, no sequence of public operations
(cycles, manual runs, clears, registrations, toggles) ever leaves more than
100 entries in the history — each cycle truncates to the most recent 100. -/
theorem history_never_exceeds_100 (config : ScheduleConfig)
    (ops : List SchedulerOp) :
    ((ops.foldl applyOp (mkScheduler config)).state.history.length ≤ 100) := by
  have general : ∀ (l : List SchedulerOp) (s : Scheduler),
      s.state.history.length ≤ 100 →
      ((l.foldl applyOp s).state.history.length ≤ 100) := by
    intro l
    induction l with
    | nil => intro s hs; exact hs
    | cons op rest ih =>
      intro s hs
      exact ih (applyOp s op) (applyOp_history_le s op hs)
  exact general ops (mkScheduler config) (Nat.zero_le 100)

/-! ### Consecutive-error accounting -/

/-- The consecutive-error counter after a cycle that reaches the
state-update step (market gate passed, at least one enabled task): increment
on any failed result, reset to 0 otherwise. -/
theorem runTasks_consec (s : Scheduler) (now : Timestamp)
    (gateTime : Nat → Timestamp)
    (hg : marketGate s.config now = none)
    (hne : (selectTasks s.tasks).isEmpty = false) :
    (runTasks s now gateTime).1.state.consecutiveErrors
      = if ((runLoop s.config gateTime (selectTasks s.tasks) 0).1.any
              fun r => !r.success) = true
        then s.state.consecutiveErrors + 1 else 0 := by
  simp only [runTasks, hg, hne, Bool.false_eq_true, if_false]
  split <;> split
  · exact ((stopScheduler_state _).2.2.1).trans rfl
  · rfl
  · exact ((stopScheduler_state _).2.2.1).trans rfl
  · rfl

/-- All results succeeded exactly when no result failed. -/
theorem all_success_iff_not_any_failure (rs : List TaskExecutionResult) :
    (rs.all fun r => r.success) = true
      ↔ (rs.any fun r => !r.success) = false := by
  simp [List.all_eq_true, List.any_eq_false]

/-- C8: whenever a cycle reaches the state-update step, the new
`consecutiveErrors` is 0 exactly when every executed result succeeded
(vacuously included), and is the old value plus one when some executed
result failed; and no cycle-free operation (register/unregister, start
without `runOnStart`, stop, enable/disable, clearHistory) ever changes
`consecutiveErrors`. -/
theorem consecutive_errors_accounting :
    (∀ (s : Scheduler) (now : Timestamp) (gateTime : Nat → Timestamp),
        marketGate s.config now = none →
        (selectTasks s.tasks).isEmpty = false →
        (((runTasks s now gateTime).1.state.consecutiveErrors = 0
            ↔ ((runLoop s.config gateTime (selectTasks s.tasks) 0).1.all
                fun r => r.success) = true)
          ∧ (((runLoop s.config gateTime (selectTasks s.tasks) 0).1.any
                fun r => !r.success) = true →
              (runTasks s now gateTime).1.state.consecutiveErrors
                = s.state.consecutiveErrors + 1)))
      ∧ (∀ (s : Scheduler) (op : SchedulerOp), cycleFree s op = true →
          (applyOp s op).state.consecutiveErrors
            = s.state.consecutiveErrors) := by
  constructor
  · intro s now gateTime hg hne
    have hc := runTasks_consec s now gateTime hg hne
    constructor
    · rw [hc, all_success_iff_not_any_failure]
      by_cases han : ((runLoop s.config gateTime (selectTasks s.tasks) 0).1.any
          fun r => !r.success) = true
      · simp [han]
      · simp [han]
    · intro han
      rw [hc, han]
      simp
  · intro s op hop
    cases op with
    | tick now gateTime => simp [cycleFree] at hop
    | runNowOp now gateTime => simp [cycleFree] at hop
    | startOp now gateTime =>
      have hro : s.config.runOnStart.getD false = false := by
        simpa [cycleFree] using hop
      simp only [applyOp, startScheduler, hro, Bool.false_eq_true, if_false]
      split
      · rfl
      · rfl
    | stopOp => exact (stopScheduler_state s).2.2.1
    | registerTaskOp task => rfl
    | unregisterTaskOp taskId => rfl
    | enableTaskOp taskId => rfl
    | disableTaskOp taskId => rfl
    | clearHistoryOp => rfl

/-- A concrete running scheduler holding one always-failing task, with
`maxConsecutiveErrors := 1`, for witnesses. -/
def failingScheduler : Scheduler :=
  { config :=
      { intervalMinutes := 15
        respectMarketHours := false
        marketHours := none
        timezone := none
        runOnStart := none
        maxConsecutiveErrors := some 1 }
    tasks := [("t1", boomTask)]
    state :=
      { isRunning := true
        lastRunTime := none
        nextRunTime := none
        totalRuns := 0
        consecutiveErrors := 0
        history := [] }
    timerArmed := true }

/-- A concrete cycle instant for witnesses. -/
def sampleNow : Timestamp :=
  { day := 4, minuteOfDay := 600 }

/-- A concrete fresh-instant stream for witnesses. -/
def sampleGate : Nat → Timestamp :=
  fun _ => { day := 4, minuteOfDay := 600 }

/-- Witness for `consecutive_errors_accounting` on the failing scheduler and
on a `clearHistory` operation. -/
theorem consecutive_errors_accounting_witness :
    marketGate failingScheduler.config sampleNow = none
      ∧ (selectTasks failingScheduler.tasks).isEmpty = false
      ∧ ((runLoop failingScheduler.config sampleGate
            (selectTasks failingScheduler.tasks) 0).1.any
          fun r => !r.success) = true
      ∧ (runTasks failingScheduler sampleNow sampleGate).1.state.consecutiveErrors
          = failingScheduler.state.consecutiveErrors + 1
      ∧ cycleFree failingScheduler SchedulerOp.clearHistoryOp = true
      ∧ (applyOp failingScheduler SchedulerOp.clearHistoryOp).state.consecutiveErrors
          = failingScheduler.state.consecutiveErrors :=
  ⟨by decide, by decide, by decide,
   (consecutive_errors_accounting.1 failingScheduler sampleNow sampleGate
      (by decide) (by decide)).2 (by decide),
   by decide,
   consecutive_errors_accounting.2 failingScheduler .clearHistoryOp (by decide)⟩

/-! ### The circuit breaker -/

/-- After `stop()` the scheduler is never marked running. -/
theorem stopScheduler_not_running (s : Scheduler) :
    (stopScheduler s).1.state.isRunning = false := by
  simp only [stopScheduler]
  split
  · rename_i hcond
    simpa using hcond
  · rfl

/-- After `stop()` the repeating timer is disarmed, provided the timer was
armed only while running. -/
theorem stopScheduler_disarmed (s : Scheduler)
    (h : s.state.isRunning = false → s.timerArmed = false) :
    (stopScheduler s).1.timerArmed = false := by
  simp only [stopScheduler]
  split
  · rename_i hcond
    exact h (by simpa using hcond)
  · rfl

/-- The execution loop emits only task lifecycle events, never an `error`
event. -/
theorem runLoop_no_error_event (config : ScheduleConfig)
    (gateTime : Nat → Timestamp) :
    ∀ (l : List ScheduledTask) (i : Nat),
      ((runLoop config gateTime l i).2.filter
          fun e => e.type == SchedulerEventType.error) = [] := by
  intro l
  induction l with
  | nil => intro i; rfl
  | cons t rest ih =>
    intro i
    simp only [runLoop]
    split
    · exact ih (i + 1)
    · rw [List.filter_append, ih (i + 1), List.append_nil]
      cases hexec : t.execute <;> simp [executeTask, hexec]

/-- Stopping emits at most a `stop` event, never an `error` event. -/
theorem stopScheduler_no_error_event (s : Scheduler) :
    ((stopScheduler s).2.filter fun e => e.type == SchedulerEventType.error)
      = [] := by
  simp only [stopScheduler]
  split
  · rfl
  · rfl

/-- C1: when a cycle that reaches the state-update step leaves the
consecutive-error counter at or above `maxConsecutiveErrors ?? 10`, the
cycle ends through `stop()`: the scheduler is left not running with the
repeating timer cancelled (so no further timer-driven cycle until
`start()`), and the cycle emits exactly one `error` event, carrying reason
`max_consecutive_errors`. -/
theorem circuit_breaker_stops (s : Scheduler) (now : Timestamp)
    (gateTime : Nat → Timestamp)
    (hInv : s.state.isRunning = false → s.timerArmed = false)
    (hg : marketGate s.config now = none)
    (hne : (selectTasks s.tasks).isEmpty = false)
    (hmax : s.config.maxConsecutiveErrors.getD 10
        ≤ (runTasks s now gateTime).1.state.consecutiveErrors) :
    (runTasks s now gateTime).1.state.isRunning = false
      ∧ (runTasks s now gateTime).1.timerArmed = false
      ∧ ((runTasks s now gateTime).2.filter
            fun e => e.type == SchedulerEventType.error)
          = [{ type := .error
               data := some { reason := some "max_consecutive_errors" } }] := by
  rw [runTasks_consec s now gateTime hg hne] at hmax
  simp only [runTasks, hg, hne, Bool.false_eq_true, if_false]
  split
  · rename_i han
    rw [han, if_pos rfl] at hmax
    split
    · refine ⟨stopScheduler_not_running _, stopScheduler_disarmed _ hInv, ?_⟩
      rw [List.filter_append, List.filter_append,
        runLoop_no_error_event, stopScheduler_no_error_event]
      rfl
    · rename_i hbr
      exact absurd hmax hbr
  · rename_i han
    rw [Bool.not_eq_true] at han
    rw [han] at hmax
    simp only [Bool.false_eq_true, if_false] at hmax
    split
    · refine ⟨stopScheduler_not_running _, stopScheduler_disarmed _ hInv, ?_⟩
      rw [List.filter_append, List.filter_append,
        runLoop_no_error_event, stopScheduler_no_error_event]
      rfl
    · rename_i hbr
      exact absurd hmax hbr

/-- Witness for `circuit_breaker_stops` on the failing scheduler (one
always-throwing task, threshold 1). -/
theorem circuit_breaker_stops_witness :
    (failingScheduler.state.isRunning = true)
      ∧ marketGate failingScheduler.config sampleNow = none
      ∧ (selectTasks failingScheduler.tasks).isEmpty = false
      ∧ failingScheduler.config.maxConsecutiveErrors.getD 10
          ≤ (runTasks failingScheduler sampleNow sampleGate).1.state.consecutiveErrors
      ∧ (runTasks failingScheduler sampleNow sampleGate).1.state.isRunning = false
      ∧ (runTasks failingScheduler sampleNow sampleGate).1.timerArmed = false :=
  ⟨by decide, by decide, by decide, by decide,
   (circuit_breaker_stops failingScheduler sampleNow sampleGate
      (by decide) (by decide) (by decide) (by decide)).1,
   (circuit_breaker_stops failingScheduler sampleNow sampleGate
      (by decide) (by decide) (by decide) (by decide)).2.1⟩

/-! ### Feature toggles of the orchestrator -/

/-- Updating the entry stored under a key commutes with looking that key up:
the lookup finds the transformed value. -/
theorem find?_toggle (f : ScheduledTask → ScheduledTask) (taskId : String) :
    ∀ (l : List (String × ScheduledTask)),
      List.find? (fun p => p.1 = taskId)
          (l.map fun p => if p.1 = taskId then (p.1, f p.2) else p)
        = (List.find? (fun p => p.1 = taskId) l).map
            (fun p => (taskId, f p.2)) := by
  intro l
  induction l with
  | nil => rfl
  | cons q rest ih =>
    by_cases hq : q.1 = taskId
    · simp [List.find?_cons, hq]
    · simp [List.find?_cons, hq, ih]

/-- Looking the task up after `disableTask` finds it disabled. -/
theorem lookupTask_disableTask (s : Scheduler) (taskId : String) :
    lookupTask (disableTask s taskId) taskId
      = (lookupTask s taskId).map fun t => { t with enabled := false } := by
  simp only [lookupTask, disableTask]
  rw [find?_toggle (fun t => { t with enabled := false }) taskId s.tasks]
  cases List.find? (fun p => p.1 = taskId) s.tasks <;> rfl

/-- Looking the task up after `enableTask` finds it enabled. -/
theorem lookupTask_enableTask (s : Scheduler) (taskId : String) :
    lookupTask (enableTask s taskId) taskId
      = (lookupTask s taskId).map fun t => { t with enabled := true } := by
  simp only [lookupTask, enableTask]
  rw [find?_toggle (fun t => { t with enabled := true }) taskId s.tasks]
  cases List.find? (fun p => p.1 = taskId) s.tasks <;> rfl

/-- After `disableTask taskId`, no selected task of the next cycle carries
that id (for a registry whose stored ids match their keys). -/
theorem selectTasks_after_disable (s : Scheduler) (taskId : String)
    (hWF : ∀ p ∈ s.tasks, (p.2).id = p.1) :
    ∀ u ∈ selectTasks (disableTask s taskId).tasks, u.id ≠ taskId := by
  intro u hu
  have hu2 := mem_sortByPrio.mp hu
  obtain ⟨humem, huen⟩ := List.mem_filter.mp hu2
  obtain ⟨p', hp', rfl⟩ := List.mem_map.mp humem
  obtain ⟨p, hp, rfl⟩ := List.mem_map.mp hp'
  by_cases hpk : p.1 = taskId
  · simp [hpk] at huen
  · simp only [hpk, if_false]
    intro heq
    exact hpk ((hWF p hp) ▸ heq)

/-- C9: `setFeatureEnabled(flag, false)` clears the config flag and leaves
the mapped task registered but disabled — so the next cycle's selection
contains no task with that id — and a subsequent
`setFeatureEnabled(flag, true)` sets the flag, re-enables the same
registered task (no re-registration: the registry size never changes), and
the re-enabled task is selected again. -/
theorem feature_toggle_roundtrip (o : TradingOrchestrator) (f : FeatureFlag)
    (t : ScheduledTask)
    (hWF : ∀ p ∈ o.scheduler.tasks, (p.2).id = p.1)
    (hReg : lookupTask o.scheduler (taskIdFor f) = some t) :
    getFlag (setFeatureEnabled o f false).config f = false
      ∧ lookupTask (setFeatureEnabled o f false).scheduler (taskIdFor f)
          = some { t with enabled := false }
      ∧ (setFeatureEnabled o f false).scheduler.tasks.length
          = o.scheduler.tasks.length
      ∧ (∀ u ∈ selectTasks (setFeatureEnabled o f false).scheduler.tasks,
          u.id ≠ taskIdFor f)
      ∧ getFlag (setFeatureEnabled (setFeatureEnabled o f false) f true).config f
          = true
      ∧ lookupTask (setFeatureEnabled (setFeatureEnabled o f false) f true).scheduler
            (taskIdFor f)
          = some { t with enabled := true }
      ∧ ({ t with enabled := true } : ScheduledTask)
          ∈ selectTasks
              (setFeatureEnabled (setFeatureEnabled o f false) f true).scheduler.tasks
      ∧ (setFeatureEnabled (setFeatureEnabled o f false) f true).scheduler.tasks.length
          = o.scheduler.tasks.length := by
  have hflag1 : getFlag (setFeatureEnabled o f false).config f = false := by
    cases f <;> rfl
  have hlook1 : lookupTask (setFeatureEnabled o f false).scheduler (taskIdFor f)
      = some { t with enabled := false } := by
    show lookupTask (disableTask o.scheduler (taskIdFor f)) (taskIdFor f) = _
    rw [lookupTask_disableTask, hReg]
    rfl
  have hflag2 : getFlag (setFeatureEnabled (setFeatureEnabled o f false) f true).config f
      = true := by
    cases f <;> rfl
  have hlook2 : lookupTask
        (setFeatureEnabled (setFeatureEnabled o f false) f true).scheduler (taskIdFor f)
      = some { t with enabled := true } := by
    show lookupTask (enableTask _ (taskIdFor f)) (taskIdFor f) = _
    rw [lookupTask_enableTask, hlook1]
    rfl
  refine ⟨hflag1, hlook1, ?_, ?_, hflag2, hlook2, ?_, ?_⟩
  · exact List.length_map o.scheduler.tasks _
  · exact selectTasks_after_disable o.scheduler (taskIdFor f) hWF
  · have hfind : ∃ p,
        (setFeatureEnabled (setFeatureEnabled o f false) f true).scheduler.tasks.find?
            (fun q => q.1 = taskIdFor f) = some p
          ∧ p.2 = { t with enabled := true } := by
      unfold lookupTask at hlook2
      cases hf : (setFeatureEnabled (setFeatureEnabled o f false) f true).scheduler.tasks.find?
          (fun q => q.1 = taskIdFor f) with
      | none => rw [hf] at hlook2; simp at hlook2
      | some p =>
        rw [hf] at hlook2
        exact ⟨p, rfl, by simpa using hlook2⟩
    obtain ⟨p, hpfind, hpval⟩ := hfind
    have hpmem := List.mem_of_find?_eq_some hpfind
    have hval : ({ t with enabled := true } : ScheduledTask)
        ∈ (setFeatureEnabled (setFeatureEnabled o f false) f true).scheduler.tasks.map
            Prod.snd := by
      rw [← hpval]
      exact List.mem_map_of_mem Prod.snd hpmem
    exact mem_sortByPrio.mpr (List.mem_filter.mpr ⟨hval, rfl⟩)
  · show ((o.scheduler.tasks.map _).map _).length = _
    rw [List.length_map, List.length_map]

/-- A concrete default orchestrator (all three features on, dry run), for
witnesses. -/
def sampleOrchestrator : TradingOrchestrator :=
  mkTradingOrchestrator
    { schedule :=
        { intervalMinutes := 15
          respectMarketHours := true
          marketHours := some getUSMarketHoursConfig
          timezone := none
          runOnStart := none
          maxConsecutiveErrors := some 5 }
      enablePositionMonitoring := true
      enableEntryScanning := true
      enableRollManagement := true
      dryRun := true }

/-- Witness for `feature_toggle_roundtrip`: toggling entry scanning off and
back on in the default orchestrator. -/
theorem feature_toggle_roundtrip_witness :
    (∀ p ∈ sampleOrchestrator.scheduler.tasks, (p.2).id = p.1)
      ∧ lookupTask sampleOrchestrator.scheduler
          (taskIdFor FeatureFlag.enableEntryScanning) = some scanTask
      ∧ getFlag (setFeatureEnabled sampleOrchestrator
            FeatureFlag.enableEntryScanning false).config
          FeatureFlag.enableEntryScanning = false
      ∧ lookupTask (setFeatureEnabled (setFeatureEnabled sampleOrchestrator
              FeatureFlag.enableEntryScanning false)
            FeatureFlag.enableEntryScanning true).scheduler
          (taskIdFor FeatureFlag.enableEntryScanning)
          = some { scanTask with enabled := true } :=
  ⟨by decide, by decide,
   (feature_toggle_roundtrip sampleOrchestrator FeatureFlag.enableEntryScanning
      scanTask (by decide) (by decide)).1,
   (feature_toggle_roundtrip sampleOrchestrator FeatureFlag.enableEntryScanning
      scanTask (by decide) (by decide)).2.2.2.2.2.1⟩

end IkSpread
